import Mathlib

/-!
Shallow embedding of the `baikal-adapters` Binance OHLCV loader
(`src/baikal/adapters/binance/`): the granularity calendar
(`_data_granularity.py`), the timestamp-unit rule and archive row decoding
(`adapter.py`, `_from_unix` and `_load_ohlcv_file`), the per-granularity
chunk loop (`adapter.py`, `_load_ohlcv`) and the timeline join / coalesce /
conflict-detection pipeline (`adapter.py`, `load_ohlcv`).

Modelling conventions:

* Python `datetime.date` / `datetime.datetime` become `Date` / `DateTime`
  records of numerals.  Instants are compared by wall clock: every call
  site of the adapter uses a single fixed UTC offset, under which wall
  order coincides with physical order; `tzinfo` is carried through as an
  opaque tag (`tz`), never used in comparisons.
* Polars datetimes are microsecond instants.  `toMicros` linearises a
  `DateTime` as microseconds since the calendar origin (a rata-die style
  encoding of the proleptic Gregorian calendar, order-isomorphic to the
  physical timeline).
* Nullable Float64 cells are modelled as `Option Int`: every claim under
  study depends only on null-ness and decidable value equality of cells
  (IEEE NaN payloads never arise from the integer/decimal CSV data).
* The polars join / coalesce pipeline is modelled row by row.  A left
  join keeps every left row in order (`maintain_order="left"`) and
  duplicates it once per matching right row, exactly as polars does.
* The archive store (filesystem) is abstracted as a function
  `BinanceDataGranularity → Date → Option (List CandleRow)`, with `none`
  for an absent archive; `_find_file_path` and the zip/CSV plumbing are
  the external collaborators behind this function.
* Polars `datetime_range(start, end, ...)` requires `start ≤ end` and
  raises a `ComputeError` otherwise; the model surfaces that failure as
  `LoadError.invalidInterval`.
-/

/-- Python `datetime.date`: a proleptic Gregorian calendar date. -/
structure Date where
  year : Nat
  month : Nat
  day : Nat
deriving DecidableEq

/-- Gregorian leap-year test, as Python's `calendar.isleap`. -/
def isLeap (y : Nat) : Bool := y % 4 == 0 && (y % 100 != 0 || y % 400 == 0)

/-- Number of days of month `m` (1..12) of year `y`; 0 for out-of-range months. -/
def daysInMonth (y m : Nat) : Nat :=
  match m with
  | 1 | 3 | 5 | 7 | 8 | 10 | 12 => 31
  | 4 | 6 | 9 | 11 => 30
  | 2 => if isLeap y then 29 else 28
  | _ => 0

/-- Validity of a `Date`, as enforced by the Python `datetime.date` constructor. -/
def Date.Valid (d : Date) : Prop :=
  1 ≤ d.month ∧ d.month ≤ 12 ∧ 1 ≤ d.day ∧ d.day ≤ daysInMonth d.year d.month

instance (d : Date) : Decidable d.Valid := by unfold Date.Valid; infer_instance

/-- Strict calendar order on dates (Python `date.__lt__`). -/
def Date.lt (a b : Date) : Prop :=
  a.year < b.year ∨ (a.year = b.year ∧
    (a.month < b.month ∨ (a.month = b.month ∧ a.day < b.day)))

instance (a b : Date) : Decidable (Date.lt a b) := by unfold Date.lt; infer_instance

/-- Reflexive calendar order on dates (Python `date.__le__`). -/
def Date.le (a b : Date) : Prop := a = b ∨ Date.lt a b

instance (a b : Date) : Decidable (Date.le a b) := by unfold Date.le; infer_instance

/-- Number of microseconds of one day. -/
def microsPerDay : Nat := 86400000000

/-- Python `datetime.datetime`: a date with a microsecond-resolution time of
day.  `tz` is the opaque `tzinfo` tag, carried through unchanged. -/
structure DateTime where
  date : Date
  tod : Nat
  tz : Int
deriving DecidableEq

/-- Validity of a `DateTime`, as enforced by the Python constructor. -/
def DateTime.Valid (t : DateTime) : Prop := t.date.Valid ∧ t.tod < microsPerDay

instance (t : DateTime) : Decidable t.Valid := by unfold DateTime.Valid; infer_instance

/-- Strict wall-clock order on datetimes (Python `datetime.__lt__`; all
datetimes of one adapter call share one offset, so wall order is physical
order). -/
def DateTime.lt (a b : DateTime) : Prop :=
  Date.lt a.date b.date ∨ (a.date = b.date ∧ a.tod < b.tod)

instance (a b : DateTime) : Decidable (DateTime.lt a b) := by
  unfold DateTime.lt; infer_instance

/-- Reflexive wall-clock order on datetimes. -/
def DateTime.le (a b : DateTime) : Prop :=
  (a.date = b.date ∧ a.tod = b.tod) ∨ DateTime.lt a b

instance (a b : DateTime) : Decidable (DateTime.le a b) := by
  unfold DateTime.le; infer_instance

/-- Boolean form of `DateTime.lt`, used by the chunk loop's guard. -/
def DateTime.ltB (a b : DateTime) : Bool := decide (DateTime.lt a b)

/-- Calendar successor of a date (`date + relativedelta(days=1)`). -/
def nextDay (d : Date) : Date :=
  if d.day < daysInMonth d.year d.month then ⟨d.year, d.month, d.day + 1⟩
  else if d.month < 12 then ⟨d.year, d.month + 1, 1⟩
  else ⟨d.year + 1, 1, 1⟩

/-- First day of the month after `d`'s month.  The source computes
`date + relativedelta(months=1)` (month increment with day clamping) and
then keeps only its year and month, setting the day to 1, which is exactly
this function. -/
def nextMonthFirst (d : Date) : Date :=
  if d.month < 12 then ⟨d.year, d.month + 1, 1⟩ else ⟨d.year + 1, 1, 1⟩

/-- The two archive granularities (`_data_granularity.py`). -/
inductive BinanceDataGranularity
  | DAILY
  | MONTHLY
deriving DecidableEq

/-- Model of `BinanceDataGranularity.next_chunk`: start (00:00, same
`tzinfo`) of the next calendar day, resp. of the next calendar month. -/
def BinanceDataGranularity.next_chunk :
    BinanceDataGranularity → DateTime → DateTime
  | .DAILY, t => ⟨nextDay t.date, 0, t.tz⟩
  | .MONTHLY, t => ⟨nextMonthFirst t.date, 0, t.tz⟩

/-- Python `f"{n:02d}"` for a natural number: left pad with zeros to width 2. -/
def fmt02 (n : Nat) : String := if n < 10 then "0" ++ toString n else toString n

/-- Model of `BinanceDataGranularity.file_date`: the source formats with
`f"{date.year:02d}-{date.month:02d}-{date.day:02d}"` (daily) and
`f"{date.year:02d}-{date.month:02d}"` (monthly) - note the year is padded
only to width 2. -/
def BinanceDataGranularity.file_date :
    BinanceDataGranularity → Date → String
  | .DAILY, d => fmt02 d.year ++ "-" ++ fmt02 d.month ++ "-" ++ fmt02 d.day
  | .MONTHLY, d => fmt02 d.year ++ "-" ++ fmt02 d.month

/-- Instrument types (`enums.py`). -/
inductive BinanceInstrumentType
  | FUTURES
  | OPTION
  | SPOT
deriving DecidableEq

/-- Data types (`enums.py`). -/
inductive BinanceDataType
  | AGGREGATED_TRADES
  | OHLCV
  | TRADES
deriving DecidableEq

/-- Sampling intervals (`enums.py`). -/
inductive BinanceDataInterval
  | ONE_SECOND
  | ONE_MINUTE
  | THREE_MINUTES
  | FIVE_MINUTES
  | FIFTEEN_MINUTES
  | THIRTY_MINUTES
  | ONE_HOUR
  | TWO_HOURS
  | FOUR_HOURS
  | SIX_HOURS
  | EIGHT_HOURS
  | TWELVE_HOURS
  | ONE_DAY
  | THREE_DAYS
  | ONE_WEEK
  | ONE_MONTH
deriving DecidableEq

/-- Fixed duration in microseconds of a sampling interval; `none` for the
calendar-month interval `1mo`, whose polars step is not a fixed duration
and which `timelineTicks` handles by calendar-month stepping. -/
def BinanceDataInterval.fixedMicros : BinanceDataInterval → Option Nat
  | .ONE_SECOND => some 1000000
  | .ONE_MINUTE => some 60000000
  | .THREE_MINUTES => some 180000000
  | .FIVE_MINUTES => some 300000000
  | .FIFTEEN_MINUTES => some 900000000
  | .THIRTY_MINUTES => some 1800000000
  | .ONE_HOUR => some 3600000000
  | .TWO_HOURS => some 7200000000
  | .FOUR_HOURS => some 14400000000
  | .SIX_HOURS => some 21600000000
  | .EIGHT_HOURS => some 28800000000
  | .TWELVE_HOURS => some 43200000000
  | .ONE_DAY => some 86400000000
  | .THREE_DAYS => some 259200000000
  | .ONE_WEEK => some 604800000000
  | .ONE_MONTH => none

/-- Request identity (`config.py`, `BinanceDataConfig`). -/
structure BinanceDataConfig where
  data_type : BinanceDataType
  instrument_type : BinanceInstrumentType
  interval : BinanceDataInterval
  symbol : String

/-- Epoch unit selected by `BinanceAdapter._from_unix`. -/
inductive TimeUnit
  | us
  | ms
deriving DecidableEq

/-- The 2025-01-01 spot-market timestamp-unit cutover date. -/
def cutoverDate : Date := ⟨2025, 1, 1⟩

/-- Model of `BinanceAdapter._from_unix`: unit of the raw epoch integers of
a chunk, chosen from the instrument type and the chunk's nominal date. -/
def BinanceAdapter.from_unix (config : BinanceDataConfig) (date : Date) :
    TimeUnit :=
  if config.instrument_type = BinanceInstrumentType.SPOT ∧
      Date.le cutoverDate date then
    TimeUnit.us
  else
    TimeUnit.ms

/-- Polars `from_epoch(column, unit)` on one cell, with datetimes carried
as microseconds: `us` is the identity and `ms` scales by 1000. -/
def applyUnit : TimeUnit → Int → Int
  | .us, x => x
  | .ms, x => x * 1000

/-- One parsed raw CSV row of an archive, in the fixed headerless column
order of `BinanceOHLCV.polar_schema()` with the two timestamp columns still
as raw `Int64` epoch integers (`_load_ohlcv_file`'s `raw_schema`). -/
structure BinanceRawOHLCV where
  date_time : Int
  «open» : Option Int
  high : Option Int
  low : Option Int
  close : Option Int
  volume : Option Int
  close_date_time : Int
  quote_volume : Option Int
  trades_count : Option Int
  taker_buy_base_volume : Option Int
  taker_buy_quote_volume : Option Int
  ignore : Int
deriving DecidableEq

/-- One decoded row (the `BinanceOHLCV` schema): both timestamp columns
converted to datetimes (microseconds), the `ignore` column dropped by the
final `select(BinanceOHLCV.column_names())`. -/
structure BinanceDecodedOHLCV where
  date_time : Int
  «open» : Option Int
  high : Option Int
  low : Option Int
  close : Option Int
  volume : Option Int
  close_date_time : Int
  quote_volume : Option Int
  trades_count : Option Int
  taker_buy_base_volume : Option Int
  taker_buy_quote_volume : Option Int
deriving DecidableEq

/-- Model of the decoding part of `BinanceAdapter._load_ohlcv_file`: the
`with_columns` call rewrites `date_time` and `close_date_time` by
`_from_unix(config, column, date)` with the chunk's nominal `date`; all
remaining columns pass through unchanged. -/
def BinanceAdapter.load_ohlcv_file (config : BinanceDataConfig)
    (date : Date) (rows : List BinanceRawOHLCV) : List BinanceDecodedOHLCV :=
  rows.map fun r =>
    { date_time := applyUnit (BinanceAdapter.from_unix config date) r.date_time
      «open» := r.«open»
      high := r.high
      low := r.low
      close := r.close
      volume := r.volume
      close_date_time :=
        applyUnit (BinanceAdapter.from_unix config date) r.close_date_time
      quote_volume := r.quote_volume
      trades_count := r.trades_count
      taker_buy_base_volume := r.taker_buy_base_volume
      taker_buy_quote_volume := r.taker_buy_quote_volume }

/-- Cumulative day count of the first `m` months of year `y`. -/
def monthsDays (y : Nat) : Nat → Nat
  | 0 => 0
  | m + 1 => monthsDays y m + daysInMonth y (m + 1)

/-- Day count of the proleptic Gregorian years before year `y`. -/
def daysBeforeYear : Nat → Nat
  | 0 => 0
  | y + 1 => daysBeforeYear y + monthsDays y 12

/-- Rata-die index of a date: days elapsed since the calendar origin. -/
def toDays (d : Date) : Nat :=
  daysBeforeYear d.year + monthsDays d.year (d.month - 1) + (d.day - 1)

/-- Microsecond instant of the midnight starting date `d`. -/
def dateMicros (d : Date) : Nat := toDays d * microsPerDay

/-- Microsecond instant of a datetime (the polars `Datetime("us")` value a
timeline tick or a decoded row carries, up to the common epoch shift). -/
def toMicros (t : DateTime) : Nat := dateMicros t.date + t.tod

/-- One candle row as it flows through the reconciliation pipeline: the
`date_time` key (a microsecond instant) and the five core nullable fields.
The passthrough payload columns (`close_date_time`, `quote_volume`,
`trades_count`, the taker volumes) are never read by the joins, the
coalesce step or the conflict filter, and are omitted here. -/
structure CandleRow where
  date_time : Nat
  «open» : Option Int
  high : Option Int
  low : Option Int
  close : Option Int
  volume : Option Int
deriving DecidableEq

/-- Result of one `_load_ohlcv` granularity build: the concatenated series,
the chunk dates passed to `_load_ohlcv_file` (the archive lookups), and
whether a progress computation ever divided by a zero `interval_seconds`. -/
structure BuildResult where
  series : List CandleRow
  fetched : List Date
  divByZero : Bool
deriving DecidableEq

/-- The chunk-cursor loop of `BinanceAdapter._load_ohlcv`: while
`chunk_date_time < end`, fetch the chunk for `chunk_date_time.date()`
(absent chunks contribute nothing), advance the cursor by
`granularity.next_chunk`, and report progress as
`(cursor - start).total_seconds() / interval_seconds`, a division whose
by-zero outcome is recorded in `divByZero`.  `fuel` bounds the recursion;
`load_ohlcv_granularity` passes more fuel than the loop can consume. -/
def buildLoop (arch : Date → Option (List CandleRow))
    (g : BinanceDataGranularity) (endDT : DateTime) (intervalSeconds : Nat) :
    Nat → DateTime → BuildResult
  | 0, _ => ⟨[], [], false⟩
  | fuel + 1, cursor =>
    if DateTime.ltB cursor endDT then
      let chunk := arch cursor.date
      let rest := buildLoop arch g endDT intervalSeconds fuel
        (BinanceDataGranularity.next_chunk g cursor)
      { series := (match chunk with | some c => c | none => []) ++ rest.series
        fetched := cursor.date :: rest.fetched
        divByZero := (intervalSeconds == 0) || rest.divByZero }
    else ⟨[], [], false⟩

/-- Model of `BinanceAdapter._load_ohlcv` for one granularity.
`interval_seconds` is `(end - start).total_seconds()`; the model keeps it
in microseconds (truncated at zero), which preserves exactly its zero-ness
on the valid inputs the divisor check is about. -/
def BinanceAdapter.load_ohlcv_granularity
    (arch : Date → Option (List CandleRow)) (g : BinanceDataGranularity)
    (start endDT : DateTime) : BuildResult :=
  buildLoop arch g endDT (toMicros endDT - toMicros start)
    (toDays endDT.date + 2 - toDays start.date) start

/-- Tick generator behind polars `datetime_range(start, end, interval,
closed="left")`: emit `t` and step by `i` while `t < e`.  The fuel passed
by `datetimeRange` dominates the tick count for every positive step. -/
def datetimeRangeAux (i : Nat) : Nat → Nat → Nat → List Nat
  | 0, _, _ => []
  | fuel + 1, t, e => if t < e then t :: datetimeRangeAux i fuel (t + i) e else []

/-- Ticks `start + k*i` with `t < e` (the canonical timeline). -/
def datetimeRange (s e i : Nat) : List Nat := datetimeRangeAux i (e - s + 1) s e

/-- Date `k` calendar months after `d`, with the day clamped into the
target month (polars month-offset saturation). -/
def addMonthsClamped (d : Date) (k : Nat) : Date :=
  ⟨d.year + (d.month - 1 + k) / 12, (d.month - 1 + k) % 12 + 1,
   min d.day (daysInMonth (d.year + (d.month - 1 + k) / 12)
     ((d.month - 1 + k) % 12 + 1))⟩

/-- Microsecond instant of the `k`-th tick of a `1mo` timeline: polars
emits `start` itself as the first left-closed tick and computes the later
ticks as `start` shifted by `k` months (offsets scaled from `start`, the
day clamped, the time of day kept). -/
def monthTick (start : DateTime) (k : Nat) : Nat :=
  match k with
  | 0 => toMicros start
  | _ => toMicros ⟨addMonthsClamped start.date k, start.tod, start.tz⟩

/-- Tick generator of the `1mo` timeline: emit the `k`-th month tick while
it lies before `e`.  The fuel passed by `timelineTicks` dominates the tick
count (each month step advances at least 28 days). -/
def monthTicksAux (start : DateTime) (e : Nat) : Nat → Nat → List Nat
  | 0, _ => []
  | fuel + 1, k =>
    if monthTick start k < e then
      monthTick start k :: monthTicksAux start e fuel (k + 1)
    else []

/-- Canonical timeline of polars `datetime_range(start, end, interval,
closed="left")`: microsecond stepping for a fixed-duration interval,
calendar-month stepping for `1mo`. -/
def timelineTicks (interval : BinanceDataInterval) (start endDT : DateTime) :
    List Nat :=
  match interval.fixedMicros with
  | some i => datetimeRange (toMicros start) (toMicros endDT) i
  | none =>
    monthTicksAux start (toMicros endDT)
      (toDays endDT.date + 2 - toDays start.date) 0

/-- One row of the joined frame: the timeline `date_time` plus the matched
daily row (the suffixed `*_daily` columns, all null when unmatched) and the
matched monthly row (`*_monthly`). -/
structure JoinedRow where
  date_time : Nat
  dailyRow : Option CandleRow
  monthlyRow : Option CandleRow
deriving DecidableEq

/-- First left join of `load_ohlcv`: timeline ticks against the daily
series, `how="left"`, `on="date_time"`, `maintain_order="left"` - every
tick is kept in order, duplicated once per matching daily row, with `none`
when no daily row matches. -/
def joinDaily : List Nat → List CandleRow → List (Nat × Option CandleRow)
  | [], _ => []
  | t :: ts, s =>
    (match s.filter (fun r => r.date_time == t) with
     | [] => [(t, none)]
     | rs => rs.map (fun r => (t, some r))) ++ joinDaily ts s

/-- Second left join of `load_ohlcv`: the joined frame against the monthly
series, again by the timeline `date_time`. -/
def joinMonthly : List (Nat × Option CandleRow) → List CandleRow → List JoinedRow
  | [], _ => []
  | (t, d) :: js, s =>
    (match s.filter (fun r => r.date_time == t) with
     | [] => [⟨t, d, none⟩]
     | rs => rs.map (fun r => ⟨t, d, some r⟩)) ++ joinMonthly js s

/-- Polars `coalesce(a, b)` on one pair of cells: first non-null. -/
def polarsCoalesce (a b : Option Int) : Option Int :=
  match a with
  | some v => some v
  | none => b

/-- The `with_columns` coalesce step of `load_ohlcv` on one joined row:
each core field prefers the `*_daily` cell (null when the daily join missed
or the daily cell is null) and falls back to the `*_monthly` cell. -/
def coalesceRow (j : JoinedRow) : CandleRow :=
  { date_time := j.date_time
    «open» := polarsCoalesce (j.dailyRow.bind (·.«open»)) (j.monthlyRow.bind (·.«open»))
    high := polarsCoalesce (j.dailyRow.bind (·.high)) (j.monthlyRow.bind (·.high))
    low := polarsCoalesce (j.dailyRow.bind (·.low)) (j.monthlyRow.bind (·.low))
    close := polarsCoalesce (j.dailyRow.bind (·.close)) (j.monthlyRow.bind (·.close))
    volume := polarsCoalesce (j.dailyRow.bind (·.volume)) (j.monthlyRow.bind (·.volume)) }

/-- Polars `ne_missing` on two nullable cells: null equals null, null
differs from any value, values compare by equality. -/
def ne_missing (a b : Option Int) : Bool := a != b

/-- The ambiguity filter of `load_ohlcv`: some core field differs under
`ne_missing` between the `*_daily` and `*_monthly` cells, and both join key
columns `date_time_daily` and `date_time_monthly` are non-null (both joins
matched). -/
def ambiguousPred (j : JoinedRow) : Bool :=
  (ne_missing (j.dailyRow.bind (·.«open»)) (j.monthlyRow.bind (·.«open»)) ||
   ne_missing (j.dailyRow.bind (·.high)) (j.monthlyRow.bind (·.high)) ||
   ne_missing (j.dailyRow.bind (·.low)) (j.monthlyRow.bind (·.low)) ||
   ne_missing (j.dailyRow.bind (·.close)) (j.monthlyRow.bind (·.close)) ||
   ne_missing (j.dailyRow.bind (·.volume)) (j.monthlyRow.bind (·.volume))) &&
  j.dailyRow.isSome && j.monthlyRow.isSome

/-- Failure surfaced by `load_ohlcv`: the `InvalidInterval` condition
(polars `datetime_range` rejects `start > end` with a `ComputeError` when
the lazy frame is collected). -/
inductive LoadError
  | invalidInterval
deriving DecidableEq

/-- Observable outcome of one `load_ohlcv` call: the returned series, the
logged ambiguous-entry count, the chunk dates looked up per granularity,
and the builders' division-by-zero record. -/
structure LoadResult where
  rows : List CandleRow
  ambiguousCount : Nat
  fetchedDaily : List Date
  fetchedMonthly : List Date
  divByZero : Bool
deriving DecidableEq

/-- Model of `BinanceAdapter.load_ohlcv`: build the daily and monthly
series, then build the canonical timeline over `[start, end)` at the
config's sampling interval, left-join both series onto it, coalesce the
five core fields daily-first, and count the ambiguous joined rows. -/
def BinanceAdapter.load_ohlcv
    (arch : BinanceDataGranularity → Date → Option (List CandleRow))
    (config : BinanceDataConfig) (start endDT : DateTime) :
    Except LoadError LoadResult :=
  let daily := BinanceAdapter.load_ohlcv_granularity
    (arch BinanceDataGranularity.DAILY) BinanceDataGranularity.DAILY start endDT
  let monthly := BinanceAdapter.load_ohlcv_granularity
    (arch BinanceDataGranularity.MONTHLY) BinanceDataGranularity.MONTHLY start endDT
  if DateTime.ltB endDT start then
    Except.error LoadError.invalidInterval
  else
    let ticks := timelineTicks config.interval start endDT
    let joined := joinMonthly (joinDaily ticks daily.series) monthly.series
    Except.ok
      { rows := joined.map coalesceRow
        ambiguousCount := (joined.filter ambiguousPred).length
        fetchedDaily := daily.fetched
        fetchedMonthly := monthly.fetched
        divByZero := daily.divByZero || monthly.divByZero }

/-- Rows of a load outcome (empty on failure, which returns no frame). -/
def rowsOf : Except LoadError LoadResult → List CandleRow
  | .ok r => r.rows
  | .error _ => []

/-- Ambiguous-entry count of a load outcome (0 on failure). -/
def ambiguousOf : Except LoadError LoadResult → Nat
  | .ok r => r.ambiguousCount
  | .error _ => 0

/-- Success flag of a load outcome. -/
def isOkE : Except LoadError LoadResult → Bool
  | .ok _ => true
  | .error _ => false

/-- Daily series built by one `load_ohlcv` call (the `daily_data` frame). -/
def dailySeries (arch : BinanceDataGranularity → Date → Option (List CandleRow))
    (start endDT : DateTime) : List CandleRow :=
  (BinanceAdapter.load_ohlcv_granularity (arch BinanceDataGranularity.DAILY)
    BinanceDataGranularity.DAILY start endDT).series

/-- Monthly series built by one `load_ohlcv` call (the `monthly_data` frame). -/
def monthlySeries (arch : BinanceDataGranularity → Date → Option (List CandleRow))
    (start endDT : DateTime) : List CandleRow :=
  (BinanceAdapter.load_ohlcv_granularity (arch BinanceDataGranularity.MONTHLY)
    BinanceDataGranularity.MONTHLY start endDT).series

/-- Microsecond lower bound of the window covered by the archive chunk the
builder fetches at cursor date `d`: the day's midnight for daily archives,
the first midnight of `d`'s month for monthly archives. -/
def chunkLo : BinanceDataGranularity → Date → Nat
  | .DAILY, d => dateMicros d
  | .MONTHLY, d => dateMicros ⟨d.year, d.month, 1⟩

/-- Microsecond upper bound (exclusive) of the chunk window at date `d`. -/
def chunkHi : BinanceDataGranularity → Date → Nat
  | .DAILY, d => dateMicros (nextDay d)
  | .MONTHLY, d => dateMicros (nextMonthFirst d)

/-- Vendor well-formedness of one granularity's archives, the external
invariant the source relies on (its builder "does not deduplicate across
chunk boundaries"): every present chunk's rows are strictly ascending in
`date_time` and lie inside that chunk's calendar window, so chunks of one
granularity never overlap. -/
def WFChunks (g : BinanceDataGranularity)
    (arch : Date → Option (List CandleRow)) : Prop :=
  ∀ d : Date, d.Valid → ∀ c, arch d = some c →
    ((c.map (·.date_time)).Pairwise (· < ·)) ∧
    ∀ r ∈ c, chunkLo g d ≤ r.date_time ∧ r.date_time < chunkHi g d

/-- Chunk boundaries of a granularity: midnights for daily, first-of-month
midnights for monthly. -/
def isBoundary (g : BinanceDataGranularity) (b : DateTime) : Prop :=
  b.tod = 0 ∧ (g = BinanceDataGranularity.MONTHLY → b.date.day = 1)

/-- Lookup of the source row matching a timeline timestamp, written from
the claims' wording ("the Daily-source value", "a Daily row matched"). -/
def specLookup (s : List CandleRow) (t : Nat) : Option CandleRow :=
  s.find? (fun r => r.date_time == t)

/-- Field-wise coalesce as the claims word it: the Daily value when
non-null, else the Monthly value when non-null, else null. -/
def specCoalesceField (f : CandleRow → Option Int)
    (daily monthly : List CandleRow) (t : Nat) : Option Int :=
  match specLookup daily t with
  | some dr =>
    match f dr with
    | some v => some v
    | none => (specLookup monthly t).bind f
  | none => (specLookup monthly t).bind f

/-- Expected output row at timestamp `t`, written from the claims' wording. -/
def specRow (daily monthly : List CandleRow) (t : Nat) : CandleRow :=
  { date_time := t
    «open» := specCoalesceField (fun r => r.«open») daily monthly t
    high := specCoalesceField (fun r => r.high) daily monthly t
    low := specCoalesceField (fun r => r.low) daily monthly t
    close := specCoalesceField (fun r => r.close) daily monthly t
    volume := specCoalesceField (fun r => r.volume) daily monthly t }

/-- The five core numeric fields, as projections. -/
def coreFields : List (CandleRow → Option Int) :=
  [fun r => r.«open», fun r => r.high, fun r => r.low,
   fun r => r.close, fun r => r.volume]

/-- Count of (timestamp, field) pairs at which both sources matched and
their values differ (null-vs-null equal, null-vs-value differing), written
from the claim wording of C3. -/
def specConflictPairCount (daily monthly : List CandleRow)
    (ticks : List Nat) : Nat :=
  (ticks.map (fun t =>
    match specLookup daily t, specLookup monthly t with
    | some dr, some mr => (coreFields.filter (fun f => f dr != f mr)).length
    | _, _ => 0)).sum

/-- Ambiguity of one timestamp, written from the claim wording: both
sources matched and at least one core field differs (null-vs-null equal,
null-vs-value differing). -/
def bothDifferB (daily monthly : List CandleRow) (t : Nat) : Bool :=
  match specLookup daily t, specLookup monthly t with
  | some dr, some mr => coreFields.any (fun f => f dr != f mr)
  | _, _ => false

/-- Count of timestamps at which both sources matched and at least one core
field differs (null-vs-null equal, null-vs-value differing). -/
def specAmbiguousTickCount (daily monthly : List CandleRow)
    (ticks : List Nat) : Nat :=
  (ticks.filter (bothDifferB daily monthly)).length

/-- Zero pad to width 4: the "four-digit-year" rendering the claim words. -/
def fmt04 (n : Nat) : String :=
  if n < 10 then "000" ++ toString n
  else if n < 100 then "00" ++ toString n
  else if n < 1000 then "0" ++ toString n
  else toString n

/-- File-date key as claim C8 words it: a four-digit year, zero-padded
month and day. -/
def specFileDateKey : BinanceDataGranularity → Date → String
  | .DAILY, d => fmt04 d.year ++ "-" ++ fmt02 d.month ++ "-" ++ fmt02 d.day
  | .MONTHLY, d => fmt04 d.year ++ "-" ++ fmt02 d.month

/-- Concrete request identity used by the witness scenarios. -/
def exCfg : BinanceDataConfig :=
  { data_type := BinanceDataType.OHLCV
    instrument_type := BinanceInstrumentType.SPOT
    interval := BinanceDataInterval.ONE_SECOND
    symbol := "BTCUSDT" }

/-- Concrete request start used by the witness scenarios. -/
def exStart : DateTime := ⟨⟨1, 1, 2⟩, 0, 0⟩

/-- Concrete request end used by the witness scenarios (one second after
`exStart`, same day). -/
def exEnd : DateTime := ⟨⟨1, 1, 2⟩, 1000000, 0⟩

/-- Daily-archive row of the witness scenario. -/
def exDailyRow : CandleRow :=
  ⟨dateMicros ⟨1, 1, 2⟩, some 1, some 1, some 1, some 1, some 1⟩

/-- Monthly-archive row of the witness scenario: differs from the daily row
in `open` and `high`, agrees on the other three core fields. -/
def exMonthlyRow : CandleRow :=
  ⟨dateMicros ⟨1, 1, 2⟩, some 2, some 2, some 1, some 1, some 1⟩

/-- Concrete archive store of the witness scenarios: one daily and one
monthly chunk, both at the date of `exStart`. -/
def exArch : BinanceDataGranularity → Date → Option (List CandleRow) :=
  fun g d =>
    match g with
    | BinanceDataGranularity.DAILY =>
      if d = ⟨1, 1, 2⟩ then some [exDailyRow] else none
    | BinanceDataGranularity.MONTHLY =>
      if d = ⟨1, 1, 2⟩ then some [exMonthlyRow] else none

/-- Adversarial daily archives: two consecutive daily chunks both carrying
a row keyed 42, overlapping in violation of the vendor invariant. -/
def dupArch : Date → Option (List CandleRow) :=
  fun d =>
    if d = ⟨1, 1, 2⟩ then some [⟨42, none, none, none, none, none⟩]
    else if d = ⟨1, 1, 3⟩ then some [⟨42, none, none, none, none, none⟩]
    else none

/-- Start of the overlapping-archive scenario. -/
def dupStart : DateTime := ⟨⟨1, 1, 2⟩, 0, 0⟩

/-- End of the overlapping-archive scenario, two days later. -/
def dupEnd : DateTime := ⟨⟨1, 1, 4⟩, 0, 0⟩

theorem DateTime.lt_irrefl (t : DateTime) : ¬ DateTime.lt t t := by
  obtain ⟨⟨y, m, d⟩, tod, tz⟩ := t
  simp [DateTime.lt, Date.lt]

theorem DateTime.ltB_self (t : DateTime) : DateTime.ltB t t = false := by
  simp [DateTime.ltB, DateTime.lt_irrefl t]

theorem DateTime.not_lt_of_le {a b : DateTime} (h : DateTime.le a b) :
    ¬ DateTime.lt b a := by
  obtain ⟨⟨y1, m1, d1⟩, tod1, tz1⟩ := a
  obtain ⟨⟨y2, m2, d2⟩, tod2, tz2⟩ := b
  simp [DateTime.le, DateTime.lt, Date.lt, Date.mk.injEq] at h ⊢
  omega

theorem DateTime.ltB_eq_false_of_le {a b : DateTime} (h : DateTime.le a b) :
    DateTime.ltB b a = false := by
  simp [DateTime.ltB, DateTime.not_lt_of_le h]

theorem monthsDays_succ (y m : Nat) :
    monthsDays y (m + 1) = monthsDays y m + daysInMonth y (m + 1) := rfl

theorem monthsDays_mono (y : Nat) {a b : Nat} (h : a ≤ b) :
    monthsDays y a ≤ monthsDays y b := by
  obtain ⟨k, rfl⟩ := Nat.le.dest h
  induction k with
  | zero => exact Nat.le_refl _
  | succ k ih =>
    have : a + (k + 1) = (a + k) + 1 := by omega
    rw [this, monthsDays_succ]
    omega

theorem daysInMonth_pos (y : Nat) {m : Nat} (h1 : 1 ≤ m) (h2 : m ≤ 12) :
    0 < daysInMonth y m := by
  interval_cases m <;> simp only [daysInMonth]
  all_goals first
    | omega
    | (split <;> omega)

theorem monthsDays_pred_add (y : Nat) {m d : Nat} (h1 : 1 ≤ m)
    (hd : d ≤ daysInMonth y m) :
    monthsDays y (m - 1) + d ≤ monthsDays y m := by
  have hm : m - 1 + 1 = m := by omega
  have := monthsDays_succ y (m - 1)
  rw [hm] at this
  omega

theorem monthsDays_bound (y : Nat) {m d : Nat} (h1 : 1 ≤ m) (h2 : m ≤ 12)
    (hd : d ≤ daysInMonth y m) :
    monthsDays y (m - 1) + d ≤ monthsDays y 12 := by
  have h3 := monthsDays_pred_add y h1 hd
  have h4 := monthsDays_mono y h2
  omega

theorem daysBeforeYear_succ (y : Nat) :
    daysBeforeYear (y + 1) = daysBeforeYear y + monthsDays y 12 := rfl

theorem daysBeforeYear_mono {a b : Nat} (h : a ≤ b) :
    daysBeforeYear a ≤ daysBeforeYear b := by
  obtain ⟨k, rfl⟩ := Nat.le.dest h
  induction k with
  | zero => exact Nat.le_refl _
  | succ k ih =>
    have : a + (k + 1) = (a + k) + 1 := by omega
    rw [this, daysBeforeYear_succ]
    omega

theorem toDays_lt_of_lt {a b : Date} (ha : a.Valid) (hb : b.Valid)
    (h : Date.lt a b) : toDays a < toDays b := by
  obtain ⟨y1, m1, d1⟩ := a
  obtain ⟨y2, m2, d2⟩ := b
  obtain ⟨ha1, ha2, ha3, ha4⟩ := ha
  obtain ⟨hb1, hb2, hb3, hb4⟩ := hb
  simp only [Date.lt] at h
  unfold toDays
  dsimp only at *
  rcases h with hy | ⟨hy, hm | ⟨hm, hd⟩⟩
  · have h1 : monthsDays y1 (m1 - 1) + d1 ≤ monthsDays y1 12 :=
      monthsDays_bound y1 ha1 ha2 ha4
    have h2 : daysBeforeYear (y1 + 1) = daysBeforeYear y1 + monthsDays y1 12 :=
      daysBeforeYear_succ y1
    have h3 : daysBeforeYear (y1 + 1) ≤ daysBeforeYear y2 :=
      daysBeforeYear_mono (by omega)
    omega
  · subst hy
    have h1 : monthsDays y1 (m1 - 1) + d1 ≤ monthsDays y1 m1 :=
      monthsDays_pred_add y1 ha1 ha4
    have h2 : monthsDays y1 m1 ≤ monthsDays y1 (m2 - 1) :=
      monthsDays_mono y1 (by omega)
    omega
  · subst hy
    subst hm
    omega

theorem toDays_le_of_le {a b : Date} (ha : a.Valid) (hb : b.Valid)
    (h : Date.le a b) : toDays a ≤ toDays b := by
  rcases h with rfl | h
  · exact Nat.le_refl _
  · exact Nat.le_of_lt (toDays_lt_of_lt ha hb h)

theorem toMicros_lt_of_lt {a b : DateTime} (ha : a.Valid) (hb : b.Valid)
    (h : DateTime.lt a b) : toMicros a < toMicros b := by
  rcases h with hd | ⟨hd, ht⟩
  · have h1 : toDays a.date < toDays b.date := toDays_lt_of_lt ha.1 hb.1 hd
    have h2 : a.tod < microsPerDay := ha.2
    unfold toMicros dateMicros microsPerDay at *
    omega
  · unfold toMicros dateMicros
    rw [hd]
    omega

theorem nextDay_valid {d : Date} (h : d.Valid) : (nextDay d).Valid := by
  obtain ⟨y, m, dd⟩ := d
  obtain ⟨h1, h2, h3, h4⟩ := h
  dsimp only at h1 h2 h3 h4
  unfold nextDay
  dsimp only
  split
  · unfold Date.Valid
    dsimp only
    omega
  · split
    · unfold Date.Valid
      dsimp only
      have := daysInMonth_pos (m := m + 1) y (by omega) (by omega)
      omega
    · unfold Date.Valid
      dsimp only
      have h31 : daysInMonth (y + 1) 1 = 31 := rfl
      omega

theorem nextDay_lt (d : Date) : Date.lt d (nextDay d) := by
  obtain ⟨y, m, dd⟩ := d
  unfold nextDay
  dsimp only
  split
  · unfold Date.lt
    dsimp only
    omega
  · split <;> (unfold Date.lt; dsimp only; omega)

theorem nextMonthFirst_valid {d : Date} (h : d.Valid) :
    (nextMonthFirst d).Valid := by
  obtain ⟨y, m, dd⟩ := d
  obtain ⟨h1, h2, h3, h4⟩ := h
  dsimp only at h1 h2 h3 h4
  unfold nextMonthFirst
  dsimp only
  split
  · unfold Date.Valid
    dsimp only
    have := daysInMonth_pos (m := m + 1) y (by omega) (by omega)
    omega
  · unfold Date.Valid
    dsimp only
    have h31 : daysInMonth (y + 1) 1 = 31 := rfl
    omega

theorem nextMonthFirst_lt (d : Date) : Date.lt d (nextMonthFirst d) := by
  obtain ⟨y, m, dd⟩ := d
  unfold nextMonthFirst
  dsimp only
  split <;> (unfold Date.lt; dsimp only; omega)

theorem next_chunk_valid (g : BinanceDataGranularity) {t : DateTime}
    (h : t.Valid) : (g.next_chunk t).Valid := by
  cases g
  · exact ⟨nextDay_valid h.1, by show (0 : Nat) < microsPerDay; unfold microsPerDay; omega⟩
  · exact ⟨nextMonthFirst_valid h.1, by show (0 : Nat) < microsPerDay; unfold microsPerDay; omega⟩

theorem next_chunk_lt (g : BinanceDataGranularity) (t : DateTime) :
    DateTime.lt t (g.next_chunk t) := by
  cases g
  · exact Or.inl (nextDay_lt t.date)
  · exact Or.inl (nextMonthFirst_lt t.date)

theorem nextDay_min {a b : Date} (ha : a.Valid) (hb : b.Valid)
    (h : Date.lt a b) : Date.le (nextDay a) b := by
  obtain ⟨y1, m1, d1⟩ := a
  obtain ⟨y2, m2, d2⟩ := b
  obtain ⟨ha1, ha2, ha3, ha4⟩ := ha
  obtain ⟨hb1, hb2, hb3, hb4⟩ := hb
  simp only [Date.lt] at h
  unfold nextDay
  dsimp only at *
  rcases h with hy | ⟨hy, hm | ⟨hm, hd⟩⟩
  · split
    · simp [Date.le, Date.lt, Date.mk.injEq]; omega
    · split <;> simp [Date.le, Date.lt, Date.mk.injEq] <;> omega
  · subst hy
    split
    · simp [Date.le, Date.lt, Date.mk.injEq]; omega
    · split <;> simp [Date.le, Date.lt, Date.mk.injEq] <;> omega
  · subst hy; subst hm
    split
    · simp [Date.le, Date.lt, Date.mk.injEq]; omega
    · exfalso; omega

theorem nextMonthFirst_min {a b : Date} (ha : a.Valid) (hb : b.Valid)
    (h : Date.lt a b) (hd1 : b.day = 1) : Date.le (nextMonthFirst a) b := by
  obtain ⟨y1, m1, d1⟩ := a
  obtain ⟨y2, m2, d2⟩ := b
  obtain ⟨ha1, ha2, ha3, ha4⟩ := ha
  obtain ⟨hb1, hb2, hb3, hb4⟩ := hb
  dsimp only at ha1 ha2 ha3 ha4 hb1 hb2 hb3 hb4 hd1
  subst hd1
  simp only [Date.lt] at h
  unfold nextMonthFirst
  dsimp only
  rcases h with hy | ⟨hy, hm | ⟨hm, hdd⟩⟩
  · split <;> (simp [Date.le, Date.lt, Date.mk.injEq]; omega)
  · subst hy
    split <;> (simp [Date.le, Date.lt, Date.mk.injEq]; omega)
  · exfalso; omega

theorem datetimeRangeAux_ge (i : Nat) :
    ∀ fuel t e x, x ∈ datetimeRangeAux i fuel t e → t ≤ x := by
  intro fuel
  induction fuel with
  | zero => intro t e x hx; simp [datetimeRangeAux] at hx
  | succ fuel ih =>
    intro t e x hx
    unfold datetimeRangeAux at hx
    by_cases hte : t < e
    · rw [if_pos hte] at hx
      rcases List.mem_cons.mp hx with rfl | hx
      · exact Nat.le_refl _
      · have := ih (t + i) e x hx
        omega
    · rw [if_neg hte] at hx
      simp at hx

theorem datetimeRangeAux_pairwise (i : Nat) (hi : 0 < i) :
    ∀ fuel t e, (datetimeRangeAux i fuel t e).Pairwise (· < ·) := by
  intro fuel
  induction fuel with
  | zero => intro t e; simp [datetimeRangeAux]
  | succ fuel ih =>
    intro t e
    unfold datetimeRangeAux
    by_cases hte : t < e
    · rw [if_pos hte]
      refine List.Pairwise.cons ?_ (ih (t + i) e)
      intro x hx
      have h1 := datetimeRangeAux_ge i fuel (t + i) e x hx
      omega
    · rw [if_neg hte]
      exact List.Pairwise.nil

theorem datetimeRangeAux_length (i : Nat) (hi : 0 < i) :
    ∀ fuel t e, e - t ≤ fuel →
      (datetimeRangeAux i fuel t e).length = (e - t + i - 1) / i := by
  intro fuel
  induction fuel with
  | zero =>
    intro t e h
    show (0 : Nat) = (e - t + i - 1) / i
    have he : e - t = 0 := by omega
    rw [he]
    exact (Nat.div_eq_of_lt (by omega)).symm
  | succ fuel ih =>
    intro t e h
    unfold datetimeRangeAux
    by_cases hte : t < e
    · rw [if_pos hte, List.length_cons, ih (t + i) e (by omega)]
      have h1 : e - t + i - 1 = (e - t - 1) + i := by omega
      rw [h1, Nat.add_div_right _ hi]
      rcases Nat.lt_or_ge (e - t) i with hlt | hle
      · have h2 : e - (t + i) = 0 := by omega
        rw [h2]
        have h3 : (0 + i - 1) / i = 0 := Nat.div_eq_of_lt (by omega)
        have h4 : (e - t - 1) / i = 0 := Nat.div_eq_of_lt (by omega)
        omega
      · have h2 : e - (t + i) + i - 1 = e - t - 1 := by omega
        rw [h2]
    · rw [if_neg hte]
      show (0 : Nat) = (e - t + i - 1) / i
      have he : e - t = 0 := by omega
      rw [he]
      exact (Nat.div_eq_of_lt (by omega)).symm

theorem filter_key_of_nodup (t : Nat) :
    ∀ s : List CandleRow, (s.map (·.date_time)).Nodup →
      s.filter (fun r => r.date_time == t) =
        (s.find? (fun r => r.date_time == t)).toList := by
  intro s
  induction s with
  | nil => intro _; rfl
  | cons a s ih =>
    intro h
    rw [List.map_cons, List.nodup_cons] at h
    by_cases hat : a.date_time = t
    · have hfilter : s.filter (fun r => r.date_time == t) = [] := by
        rw [List.filter_eq_nil_iff]
        intro r hr
        simp only [beq_iff_eq]
        intro hrt
        exact h.1 (hat ▸ hrt ▸ List.mem_map_of_mem (·.date_time) hr)
      have htrue : (a.date_time == t) = true := beq_iff_eq.mpr hat
      rw [List.filter_cons, List.find?_cons]
      simp [htrue, hfilter]
    · have hfalse : (a.date_time == t) = false := by
        simp [hat]
      rw [List.filter_cons, List.find?_cons]
      simp only [hfalse]
      simpa using ih h.2

theorem joinDaily_of_nodup (daily : List CandleRow)
    (h : (daily.map (·.date_time)).Nodup) :
    ∀ ticks : List Nat,
      joinDaily ticks daily =
        ticks.map (fun t => (t, daily.find? (fun r => r.date_time == t))) := by
  intro ticks
  induction ticks with
  | nil => rfl
  | cons t ts ih =>
    show (match daily.filter (fun r => r.date_time == t) with
      | [] => [(t, none)]
      | rs => rs.map (fun r => (t, some r))) ++ joinDaily ts daily = _
    rw [filter_key_of_nodup t daily h, ih]
    cases hf : daily.find? (fun r => r.date_time == t) <;>
      simp [hf, Option.toList]

theorem joinMonthly_of_nodup (monthly : List CandleRow)
    (h : (monthly.map (·.date_time)).Nodup) :
    ∀ js : List (Nat × Option CandleRow),
      joinMonthly js monthly =
        js.map (fun p =>
          ⟨p.1, p.2, monthly.find? (fun r => r.date_time == p.1)⟩) := by
  intro js
  induction js with
  | nil => rfl
  | cons p js ih =>
    obtain ⟨t, d⟩ := p
    show (match monthly.filter (fun r => r.date_time == t) with
      | [] => [⟨t, d, none⟩]
      | rs => rs.map (fun r => ⟨t, d, some r⟩)) ++ joinMonthly js monthly = _
    rw [filter_key_of_nodup t monthly h, ih]
    cases hf : monthly.find? (fun r => r.date_time == t) <;>
      simp [hf, Option.toList]

theorem buildLoop_stop (arch : Date → Option (List CandleRow))
    (g : BinanceDataGranularity) (endDT : DateTime) (q fuel : Nat)
    {cursor : DateTime} (h : DateTime.ltB cursor endDT = false) :
    buildLoop arch g endDT q fuel cursor = ⟨[], [], false⟩ := by
  cases fuel <;> simp [buildLoop, h]

theorem buildLoop_no_divByZero (arch : Date → Option (List CandleRow))
    (g : BinanceDataGranularity) (endDT : DateTime) {q : Nat} (hq : q ≠ 0) :
    ∀ fuel cursor, (buildLoop arch g endDT q fuel cursor).divByZero = false := by
  intro fuel
  induction fuel with
  | zero => intro c; rfl
  | succ fuel ih =>
    intro c
    unfold buildLoop
    by_cases hc : DateTime.ltB c endDT
    · have hq0 : (q == 0) = false := by simpa using hq
      simp [hc, hq0, ih]
    · simp [hc]

theorem firstOfMonth_valid {d : Date} (hd : d.Valid) :
    (⟨d.year, d.month, 1⟩ : Date).Valid := by
  obtain ⟨y, m, dd⟩ := d
  obtain ⟨h1, h2, h3, h4⟩ := hd
  dsimp only at h1 h2 h3 h4
  unfold Date.Valid
  dsimp only
  have := daysInMonth_pos (m := m) y (by omega) (by omega)
  omega

theorem firstOfMonth_lt_nextMonthFirst (d : Date) :
    Date.lt ⟨d.year, d.month, 1⟩ (nextMonthFirst d) := by
  obtain ⟨y, m, dd⟩ := d
  unfold nextMonthFirst
  dsimp only
  split <;> (unfold Date.lt; dsimp only; omega)

theorem chunkLo_lt_chunkHi (g : BinanceDataGranularity) {d : Date}
    (hd : d.Valid) : chunkLo g d < chunkHi g d := by
  cases g
  · show dateMicros d < dateMicros (nextDay d)
    have h1 := toDays_lt_of_lt hd (nextDay_valid hd) (nextDay_lt d)
    unfold dateMicros microsPerDay
    omega
  · show dateMicros ⟨d.year, d.month, 1⟩ < dateMicros (nextMonthFirst d)
    have h1 := toDays_lt_of_lt (firstOfMonth_valid hd) (nextMonthFirst_valid hd)
      (firstOfMonth_lt_nextMonthFirst d)
    unfold dateMicros microsPerDay
    omega

theorem chunkHi_eq_chunkLo_next (g : BinanceDataGranularity)
    (cursor : DateTime) :
    chunkHi g cursor.date = chunkLo g (g.next_chunk cursor).date := by
  cases g
  · rfl
  · show dateMicros (nextMonthFirst cursor.date) =
      dateMicros ⟨(nextMonthFirst cursor.date).year,
        (nextMonthFirst cursor.date).month, 1⟩
    unfold nextMonthFirst
    split <;> rfl

theorem buildLoop_series_sorted (arch : Date → Option (List CandleRow))
    (g : BinanceDataGranularity) (endDT : DateTime) (q : Nat)
    (hw : WFChunks g arch) :
    ∀ fuel cursor, cursor.Valid →
      (((buildLoop arch g endDT q fuel cursor).series.map
        (·.date_time)).Pairwise (· < ·)) ∧
      (∀ r ∈ (buildLoop arch g endDT q fuel cursor).series,
        chunkLo g cursor.date ≤ r.date_time) := by
  intro fuel
  induction fuel with
  | zero =>
    intro cursor _
    exact ⟨List.Pairwise.nil, by intro r hr; simp [buildLoop] at hr⟩
  | succ fuel ih =>
    intro cursor hc
    obtain ⟨ihp, ihb⟩ := ih (g.next_chunk cursor) (next_chunk_valid g hc)
    have hlohi : chunkLo g cursor.date < chunkHi g cursor.date :=
      chunkLo_lt_chunkHi g hc.1
    have hnext : chunkHi g cursor.date = chunkLo g (g.next_chunk cursor).date :=
      chunkHi_eq_chunkLo_next g cursor
    unfold buildLoop
    by_cases hlt : DateTime.ltB cursor endDT
    · simp only [hlt, if_true]
      cases harch : arch cursor.date with
      | none =>
        dsimp only
        constructor
        · simpa using ihp
        · intro r hr
          simp only [List.nil_append] at hr
          have h1 := ihb r hr
          omega
      | some c =>
        obtain ⟨hcs, hcb⟩ := hw cursor.date hc.1 c harch
        dsimp only
        constructor
        · rw [List.map_append, List.pairwise_append]
          refine ⟨hcs, ihp, ?_⟩
          intro x hx y hy
          obtain ⟨rx, hrx, rfl⟩ := List.mem_map.mp hx
          obtain ⟨ry, hry, rfl⟩ := List.mem_map.mp hy
          have h1 := (hcb rx hrx).2
          have h2 := ihb ry hry
          omega
        · intro r hr
          rcases List.mem_append.mp hr with hr | hr
          · exact (hcb r hr).1
          · have h1 := ihb r hr
            omega
    · simp only [Bool.not_eq_true] at hlt
      simp only [hlt, Bool.false_eq_true, if_false]
      exact ⟨List.Pairwise.nil, by intro r hr; simp at hr⟩

theorem dailySeries_nodup (arch : BinanceDataGranularity → Date → Option (List CandleRow))
    {start endDT : DateTime} (hs : start.Valid)
    (hw : WFChunks BinanceDataGranularity.DAILY (arch BinanceDataGranularity.DAILY)) :
    ((dailySeries arch start endDT).map (·.date_time)).Nodup :=
  ((buildLoop_series_sorted _ _ _ _ hw _ _ hs).1).imp (fun h => Nat.ne_of_lt h)

theorem monthlySeries_nodup (arch : BinanceDataGranularity → Date → Option (List CandleRow))
    {start endDT : DateTime} (hs : start.Valid)
    (hw : WFChunks BinanceDataGranularity.MONTHLY (arch BinanceDataGranularity.MONTHLY)) :
    ((monthlySeries arch start endDT).map (·.date_time)).Nodup :=
  ((buildLoop_series_sorted _ _ _ _ hw _ _ hs).1).imp (fun h => Nat.ne_of_lt h)

theorem load_ohlcv_reduce
    (arch : BinanceDataGranularity → Date → Option (List CandleRow))
    (config : BinanceDataConfig) {start endDT : DateTime}
    (hle : DateTime.le start endDT)
    (hd : ((dailySeries arch start endDT).map (·.date_time)).Nodup)
    (hm : ((monthlySeries arch start endDT).map (·.date_time)).Nodup) :
    BinanceAdapter.load_ohlcv arch config start endDT =
      Except.ok
        { rows := (timelineTicks config.interval start endDT).map (fun t =>
              coalesceRow ⟨t, specLookup (dailySeries arch start endDT) t,
                specLookup (monthlySeries arch start endDT) t⟩)
          ambiguousCount := (((timelineTicks config.interval start
            endDT).map (fun t =>
              (⟨t, specLookup (dailySeries arch start endDT) t,
                specLookup (monthlySeries arch start endDT) t⟩ : JoinedRow))).filter
            ambiguousPred).length
          fetchedDaily := (BinanceAdapter.load_ohlcv_granularity
            (arch BinanceDataGranularity.DAILY) BinanceDataGranularity.DAILY
            start endDT).fetched
          fetchedMonthly := (BinanceAdapter.load_ohlcv_granularity
            (arch BinanceDataGranularity.MONTHLY) BinanceDataGranularity.MONTHLY
            start endDT).fetched
          divByZero := (BinanceAdapter.load_ohlcv_granularity
            (arch BinanceDataGranularity.DAILY) BinanceDataGranularity.DAILY
            start endDT).divByZero ||
            (BinanceAdapter.load_ohlcv_granularity
              (arch BinanceDataGranularity.MONTHLY) BinanceDataGranularity.MONTHLY
              start endDT).divByZero } := by
  have h0 : DateTime.ltB endDT start = false := DateTime.ltB_eq_false_of_le hle
  unfold BinanceAdapter.load_ohlcv
  simp only [h0, Bool.false_eq_true, if_false]
  unfold dailySeries at hd ⊢
  unfold monthlySeries at hm ⊢
  rw [joinDaily_of_nodup _ hd, joinMonthly_of_nodup _ hm]
  simp only [List.map_map, Function.comp_def, specLookup]

theorem polarsCoalesce_bind_eq (f : CandleRow → Option Int)
    (daily monthly : List CandleRow) (t : Nat) :
    polarsCoalesce ((specLookup daily t).bind f)
      ((specLookup monthly t).bind f) = specCoalesceField f daily monthly t := by
  unfold specCoalesceField
  cases specLookup daily t with
  | none => rfl
  | some dr =>
    cases hf : f dr with
    | none => simp [polarsCoalesce, Option.bind, hf]
    | some v => simp [polarsCoalesce, Option.bind, hf]

theorem coalesceRow_spec (daily monthly : List CandleRow) (t : Nat) :
    coalesceRow ⟨t, specLookup daily t, specLookup monthly t⟩ =
      specRow daily monthly t := by
  unfold coalesceRow specRow
  dsimp only
  rw [polarsCoalesce_bind_eq, polarsCoalesce_bind_eq, polarsCoalesce_bind_eq,
    polarsCoalesce_bind_eq, polarsCoalesce_bind_eq]

theorem ambiguousPred_spec (daily monthly : List CandleRow) (t : Nat) :
    ambiguousPred ⟨t, specLookup daily t, specLookup monthly t⟩ =
      bothDifferB daily monthly t := by
  unfold ambiguousPred ne_missing bothDifferB coreFields
  cases specLookup daily t <;> cases specLookup monthly t <;>
    simp [List.any_cons, List.any_nil, Bool.or_assoc]

theorem fixedMicros_pos {iv : BinanceDataInterval} {i : Nat}
    (h : iv.fixedMicros = some i) : 0 < i := by
  cases iv <;> simp [BinanceDataInterval.fixedMicros] at h <;> omega

theorem filter_map_length {α β : Type} (f : α → β) (p : β → Bool) :
    ∀ l : List α,
      ((l.map f).filter p).length = (l.filter (fun a => p (f a))).length := by
  intro l
  induction l with
  | nil => rfl
  | cons a l ih =>
    simp only [List.map_cons, List.filter_cons]
    by_cases hpa : p (f a)
    · simp [hpa, ih]
    · simp [hpa, ih]

theorem addMonthsClamped_valid {d : Date} (hd : d.Valid) (k : Nat) :
    (addMonthsClamped d k).Valid := by
  obtain ⟨y, m, dd⟩ := d
  obtain ⟨h1, h2, h3, h4⟩ := hd
  dsimp only at h1 h2 h3 h4
  unfold addMonthsClamped
  dsimp only
  unfold Date.Valid
  dsimp only
  have hm : (m - 1 + k) % 12 + 1 ≤ 12 := by omega
  have hpos := daysInMonth_pos (y + (m - 1 + k) / 12)
    (m := (m - 1 + k) % 12 + 1) (by omega) hm
  refine ⟨by omega, hm, by omega, by omega⟩

theorem addMonthsClamped_lt_of_lt (d : Date) {k n : Nat} (h : k < n) :
    Date.lt (addMonthsClamped d k) (addMonthsClamped d n) := by
  obtain ⟨y, m, dd⟩ := d
  unfold addMonthsClamped Date.lt
  dsimp only
  omega

theorem lt_addMonthsClamped {d : Date} (hd : d.Valid) {k : Nat}
    (hk : 1 ≤ k) : Date.lt d (addMonthsClamped d k) := by
  obtain ⟨y, m, dd⟩ := d
  obtain ⟨h1, h2, h3, h4⟩ := hd
  dsimp only at h1 h2 h3 h4
  unfold addMonthsClamped Date.lt
  dsimp only
  omega

theorem monthTick_lt {start : DateTime} (hs : start.Valid) {k n : Nat}
    (h : k < n) : monthTick start k < monthTick start n := by
  cases k with
  | zero =>
    cases n with
    | zero => omega
    | succ n2 =>
      show toMicros start <
        toMicros ⟨addMonthsClamped start.date (n2 + 1), start.tod, start.tz⟩
      exact toMicros_lt_of_lt hs
        ⟨addMonthsClamped_valid hs.1 _, hs.2⟩
        (Or.inl (lt_addMonthsClamped hs.1 (by omega)))
  | succ k2 =>
    cases n with
    | zero => omega
    | succ n2 =>
      show toMicros ⟨addMonthsClamped start.date (k2 + 1), start.tod, start.tz⟩ <
        toMicros ⟨addMonthsClamped start.date (n2 + 1), start.tod, start.tz⟩
      exact toMicros_lt_of_lt
        ⟨addMonthsClamped_valid hs.1 _, hs.2⟩
        ⟨addMonthsClamped_valid hs.1 _, hs.2⟩
        (Or.inl (addMonthsClamped_lt_of_lt start.date (by omega)))

theorem monthTicksAux_mem (start : DateTime) (e : Nat) :
    ∀ fuel k x, x ∈ monthTicksAux start e fuel k →
      ∃ n, k ≤ n ∧ x = monthTick start n := by
  intro fuel
  induction fuel with
  | zero => intro k x hx; simp [monthTicksAux] at hx
  | succ fuel ih =>
    intro k x hx
    unfold monthTicksAux at hx
    by_cases hk : monthTick start k < e
    · rw [if_pos hk] at hx
      rcases List.mem_cons.mp hx with rfl | hx
      · exact ⟨k, Nat.le_refl _, rfl⟩
      · obtain ⟨n, hn, rfl⟩ := ih (k + 1) x hx
        exact ⟨n, by omega, rfl⟩
    · rw [if_neg hk] at hx
      simp at hx

theorem monthTicksAux_pairwise {start : DateTime} (hs : start.Valid)
    (e : Nat) : ∀ fuel k, (monthTicksAux start e fuel k).Pairwise (· < ·) := by
  intro fuel
  induction fuel with
  | zero => intro k; simp [monthTicksAux]
  | succ fuel ih =>
    intro k
    unfold monthTicksAux
    by_cases hk : monthTick start k < e
    · rw [if_pos hk]
      refine List.Pairwise.cons ?_ (ih (k + 1))
      intro x hx
      obtain ⟨n, hn, rfl⟩ := monthTicksAux_mem start e fuel (k + 1) x hx
      exact monthTick_lt hs (by omega)
    · rw [if_neg hk]
      exact List.Pairwise.nil

theorem timelineTicks_fixed {interval : BinanceDataInterval} {i : Nat}
    (hi : interval.fixedMicros = some i) (start endDT : DateTime) :
    timelineTicks interval start endDT =
      datetimeRange (toMicros start) (toMicros endDT) i := by
  unfold timelineTicks
  rw [hi]

theorem timelineTicks_pairwise (interval : BinanceDataInterval)
    {start : DateTime} (hs : start.Valid) (endDT : DateTime) :
    (timelineTicks interval start endDT).Pairwise (· < ·) := by
  unfold timelineTicks
  cases hfm : interval.fixedMicros with
  | some i =>
    unfold datetimeRange
    exact datetimeRangeAux_pairwise i (fixedMicros_pos hfm) _ _ _
  | none => exact monthTicksAux_pairwise hs _ _ _

theorem DateTime.lt_of_not_le {a b : DateTime} (h : ¬ DateTime.le a b) :
    DateTime.lt b a := by
  obtain ⟨⟨y1, m1, d1⟩, tod1, tz1⟩ := a
  obtain ⟨⟨y2, m2, d2⟩, tod2, tz2⟩ := b
  simp [DateTime.le, DateTime.lt, Date.lt, Date.mk.injEq] at h ⊢
  omega

theorem exArch_wf_daily :
    WFChunks BinanceDataGranularity.DAILY
      (exArch BinanceDataGranularity.DAILY) := by
  intro d hd c hc
  simp only [exArch] at hc
  by_cases h2 : d = ⟨1, 1, 2⟩
  · subst h2
    rw [if_pos rfl] at hc
    injection hc with hc
    subst hc
    refine ⟨by simp, ?_⟩
    intro r hr
    simp only [List.mem_singleton] at hr
    subst hr
    exact ⟨by decide, by decide⟩
  · rw [if_neg h2] at hc
    simp at hc

theorem exArch_wf_monthly :
    WFChunks BinanceDataGranularity.MONTHLY
      (exArch BinanceDataGranularity.MONTHLY) := by
  intro d hd c hc
  simp only [exArch] at hc
  by_cases h2 : d = ⟨1, 1, 2⟩
  · subst h2
    rw [if_pos rfl] at hc
    injection hc with hc
    subst hc
    refine ⟨by simp, ?_⟩
    intro r hr
    simp only [List.mem_singleton] at hr
    subst hr
    exact ⟨by decide, by decide⟩
  · rw [if_neg h2] at hc
    simp at hc

/-- C4: for every chunk, the raw integer `date_time` and `close_date_time`
columns are decoded using a unit chosen from the chunk's nominal date and
the instrument type, identically for both columns: microseconds when the
instrument type is Spot and the chunk date is on or after 2025-01-01,
milliseconds otherwise (Spot before the cutover, and every non-Spot
instrument on any date). -/
theorem c4_timestamp_unit_cutover (config : BinanceDataConfig) (date : Date)
    (rows : List BinanceRawOHLCV) :
    (BinanceAdapter.from_unix config date = TimeUnit.us ↔
      (config.instrument_type = BinanceInstrumentType.SPOT ∧
        Date.le cutoverDate date)) ∧
    (BinanceAdapter.from_unix config date = TimeUnit.ms ↔
      ¬ (config.instrument_type = BinanceInstrumentType.SPOT ∧
        Date.le cutoverDate date)) ∧
    (BinanceAdapter.load_ohlcv_file config date rows).map
        (fun r => (r.date_time, r.close_date_time)) =
      rows.map (fun r =>
        (applyUnit (BinanceAdapter.from_unix config date) r.date_time,
         applyUnit (BinanceAdapter.from_unix config date) r.close_date_time)) := by
  refine ⟨?_, ?_, ?_⟩
  · unfold BinanceAdapter.from_unix
    split
    · simp [*]
    · simp [*]
  · unfold BinanceAdapter.from_unix
    split
    · simp [*]
    · simp [*]
  · unfold BinanceAdapter.load_ohlcv_file
    rw [List.map_map]
    rfl

/-- C5: every call to `load_ohlcv` with `start > end` fails with the
`InvalidInterval` error instead of returning a result. -/
theorem c5_invalid_interval
    (arch : BinanceDataGranularity → Date → Option (List CandleRow))
    (config : BinanceDataConfig) {start endDT : DateTime}
    (h : DateTime.lt endDT start) :
    BinanceAdapter.load_ohlcv arch config start endDT =
      Except.error LoadError.invalidInterval := by
  unfold BinanceAdapter.load_ohlcv
  have hb : DateTime.ltB endDT start = true := decide_eq_true h
  simp [hb]

theorem c5_witness :
    BinanceAdapter.load_ohlcv exArch exCfg exEnd exStart =
      Except.error LoadError.invalidInterval :=
  c5_invalid_interval exArch exCfg (by decide)

/-- C7: every call to `load_ohlcv` with `start == end` returns an empty
candle series and an empty conflict report, and no chunk fetch (archive
lookup) is ever invoked. -/
theorem c7_empty_interval
    (arch : BinanceDataGranularity → Date → Option (List CandleRow))
    (config : BinanceDataConfig) (t : DateTime) :
    BinanceAdapter.load_ohlcv arch config t t =
      Except.ok ⟨[], 0, [], [], false⟩ := by
  have h0 : DateTime.ltB t t = false := DateTime.ltB_self t
  unfold BinanceAdapter.load_ohlcv
  simp only [h0, Bool.false_eq_true, if_false]
  unfold BinanceAdapter.load_ohlcv_granularity
  rw [buildLoop_stop _ _ _ _ _ h0, buildLoop_stop _ _ _ _ _ h0]
  have hticks : timelineTicks config.interval t t = [] := by
    unfold timelineTicks
    cases hfm : config.interval.fixedMicros with
    | some i =>
      unfold datetimeRange
      have h1 : toMicros t - toMicros t + 1 = 1 := by omega
      rw [h1]
      unfold datetimeRangeAux
      rw [if_neg (by omega)]
    | none =>
      have hfuel : toDays t.date + 2 - toDays t.date = 2 := by omega
      rw [hfuel]
      show (if monthTick t 0 < toMicros t then
          monthTick t 0 :: monthTicksAux t (toMicros t) 1 1 else []) = []
      have hm0 : monthTick t 0 = toMicros t := rfl
      rw [if_neg (by omega)]
  rw [hticks]
  rfl

theorem fmt02_of_ge {n : Nat} (h : 10 ≤ n) : fmt02 n = toString n := by
  unfold fmt02
  rw [if_neg (by omega)]

theorem fmt04_of_ge {n : Nat} (h : 1000 ≤ n) : fmt04 n = toString n := by
  unfold fmt04
  rw [if_neg (by omega), if_neg (by omega), if_neg (by omega)]

/-- C8 counterexample: at the valid date 0999-01-01 the source formats the
daily file-date key with a year padded only to two digits ("999-01-01"),
not the four-digit-year rendering the claim states ("0999-01-01"). -/
theorem c8_counterexample :
    BinanceDataGranularity.file_date BinanceDataGranularity.DAILY
        ⟨999, 1, 1⟩ ≠
      specFileDateKey BinanceDataGranularity.DAILY ⟨999, 1, 1⟩ := by
  decide

/-- C8 (amended): for every date whose year is at least 1000 (every
four-digit year, which covers all vendor data), the file-date key is the
date formatted as YYYY-MM-DD with zero-padded month and day for the Daily
granularity, and as YYYY-MM for the Monthly granularity; the source pads
the year only to width 2, so years below 1000 render shorter. -/
theorem c8_file_date_key (g : BinanceDataGranularity) (d : Date)
    (h : 1000 ≤ d.year) : g.file_date d = specFileDateKey g d := by
  have h1 : fmt02 d.year = toString d.year := fmt02_of_ge (by omega)
  have h2 : fmt04 d.year = toString d.year := fmt04_of_ge h
  cases g
  · show fmt02 d.year ++ "-" ++ fmt02 d.month ++ "-" ++ fmt02 d.day =
      fmt04 d.year ++ "-" ++ fmt02 d.month ++ "-" ++ fmt02 d.day
    rw [h1, h2]
  · show fmt02 d.year ++ "-" ++ fmt02 d.month =
      fmt04 d.year ++ "-" ++ fmt02 d.month
    rw [h1, h2]

theorem c8_witness :
    1000 ≤ (⟨2024, 3, 7⟩ : Date).year ∧
    BinanceDataGranularity.file_date BinanceDataGranularity.DAILY
        ⟨2024, 3, 7⟩ =
      specFileDateKey BinanceDataGranularity.DAILY ⟨2024, 3, 7⟩ :=
  ⟨by decide, c8_file_date_key BinanceDataGranularity.DAILY ⟨2024, 3, 7⟩ (by decide)⟩

/-- C10: in the per-granularity build loop the progress computation divides
by `(end - start)` in seconds, and this division is executed only when the
loop body runs, which requires `start < end`; hence for every call -
including `start == end`, where the divisor would be zero - the
division-by-zero branch is unreachable. -/
theorem c10_no_division_by_zero (arch : Date → Option (List CandleRow))
    (g : BinanceDataGranularity) {start endDT : DateTime}
    (hs : start.Valid) (he : endDT.Valid) :
    (BinanceAdapter.load_ohlcv_granularity arch g start endDT).divByZero =
      false := by
  unfold BinanceAdapter.load_ohlcv_granularity
  by_cases hlt : DateTime.ltB start endDT
  · have hlt2 : DateTime.lt start endDT := of_decide_eq_true hlt
    have hmu := toMicros_lt_of_lt hs he hlt2
    exact buildLoop_no_divByZero arch g endDT (by omega) _ _
  · simp only [Bool.not_eq_true] at hlt
    rw [buildLoop_stop _ _ _ _ _ hlt]

theorem c10_witness :
    (BinanceAdapter.load_ohlcv_granularity
      (exArch BinanceDataGranularity.DAILY) BinanceDataGranularity.DAILY
      exStart exEnd).divByZero = false :=
  c10_no_division_by_zero (exArch BinanceDataGranularity.DAILY)
    BinanceDataGranularity.DAILY (by decide) (by decide)

/-- C9: for every valid instant `t`, `next_chunk` at Daily granularity
returns the start (00:00, same timezone tag as `t`) of the calendar day
after `t`'s day, and at Monthly granularity the start of the calendar month
after `t`'s month; in both cases the result is a boundary strictly greater
than `t` and no boundary lies strictly between, so iterating `next_chunk`
from any instant visits each successive boundary exactly once in strictly
increasing order. -/
theorem c9_next_chunk_boundary (g : BinanceDataGranularity) (t : DateTime)
    (ht : t.Valid) :
    (g.next_chunk t).Valid ∧
    (g.next_chunk t).tz = t.tz ∧
    (g.next_chunk t).tod = 0 ∧
    (g = BinanceDataGranularity.DAILY →
      (g.next_chunk t).date = nextDay t.date) ∧
    (g = BinanceDataGranularity.MONTHLY →
      (g.next_chunk t).date = nextMonthFirst t.date) ∧
    DateTime.lt t (g.next_chunk t) ∧
    ∀ b : DateTime, b.Valid → b.tz = t.tz → isBoundary g b →
      DateTime.lt t b → DateTime.le (g.next_chunk t) b := by
  refine ⟨next_chunk_valid g ht, ?_, ?_, ?_, ?_, next_chunk_lt g t, ?_⟩
  · cases g <;> rfl
  · cases g <;> rfl
  · intro hg; subst hg; rfl
  · intro hg; subst hg; rfl
  · intro b hb htz hbd hlt
    cases g
    case DAILY =>
      obtain ⟨hb0, _⟩ := hbd
      rcases hlt with hdlt | ⟨hdeq, htod⟩
      · have hdate : Date.le (nextDay t.date) b.date :=
          nextDay_min ht.1 hb.1 hdlt
        rcases hdate with heq | hlt2
        · exact Or.inl ⟨heq, hb0.symm⟩
        · exact Or.inr (Or.inl hlt2)
      · exfalso; omega
    case MONTHLY =>
      obtain ⟨hb0, hb1⟩ := hbd
      have hb1d : b.date.day = 1 := hb1 rfl
      rcases hlt with hdlt | ⟨hdeq, htod⟩
      · have hdate : Date.le (nextMonthFirst t.date) b.date :=
          nextMonthFirst_min ht.1 hb.1 hdlt hb1d
        rcases hdate with heq | hlt2
        · exact Or.inl ⟨heq, hb0.symm⟩
        · exact Or.inr (Or.inl hlt2)
      · exfalso; omega

theorem c9_witness :
    DateTime.lt ⟨⟨2024, 2, 28⟩, 5, 0⟩
      (BinanceDataGranularity.DAILY.next_chunk ⟨⟨2024, 2, 28⟩, 5, 0⟩) ∧
    (BinanceDataGranularity.DAILY.next_chunk ⟨⟨2024, 2, 28⟩, 5, 0⟩).tod = 0 :=
  ⟨(c9_next_chunk_boundary BinanceDataGranularity.DAILY ⟨⟨2024, 2, 28⟩, 5, 0⟩
      (by decide)).2.2.2.2.2.1,
   (c9_next_chunk_boundary BinanceDataGranularity.DAILY ⟨⟨2024, 2, 28⟩, 5, 0⟩
      (by decide)).2.2.1⟩

/-- C1: for every request with `start < end` and a fixed sampling interval
of `i` microseconds, over any archives satisfying the vendor invariant (in
particular any pattern of present and absent Daily or Monthly archives),
the candle series returned by `load_ohlcv` succeeds and has exactly
`ceil((end - start) / i)` rows, one per tick `t = start + k*i` with
`t < end`. -/
theorem c1_timeline_length
    (arch : BinanceDataGranularity → Date → Option (List CandleRow))
    (config : BinanceDataConfig) {start endDT : DateTime} {i : Nat}
    (hs : start.Valid) (hlt : DateTime.lt start endDT)
    (hi : config.interval.fixedMicros = some i)
    (hwd : WFChunks BinanceDataGranularity.DAILY
      (arch BinanceDataGranularity.DAILY))
    (hwm : WFChunks BinanceDataGranularity.MONTHLY
      (arch BinanceDataGranularity.MONTHLY)) :
    isOkE (BinanceAdapter.load_ohlcv arch config start endDT) = true ∧
    (rowsOf (BinanceAdapter.load_ohlcv arch config start endDT)).map
        (·.date_time) =
      datetimeRange (toMicros start) (toMicros endDT) i ∧
    (rowsOf (BinanceAdapter.load_ohlcv arch config start endDT)).length =
      (toMicros endDT - toMicros start + i - 1) / i := by
  have hle : DateTime.le start endDT := Or.inr hlt
  have hstep : timelineTicks config.interval start endDT =
      datetimeRange (toMicros start) (toMicros endDT) i :=
    timelineTicks_fixed hi start endDT
  rw [load_ohlcv_reduce arch config hle (dailySeries_nodup arch hs hwd)
    (monthlySeries_nodup arch hs hwm)]
  refine ⟨rfl, ?_, ?_⟩
  · show (List.map _ _).map _ = _
    rw [List.map_map, hstep]
    have hcomp : ((fun r : CandleRow => r.date_time) ∘ fun t =>
        coalesceRow ⟨t, specLookup (dailySeries arch start endDT) t,
          specLookup (monthlySeries arch start endDT) t⟩) = fun t => t :=
      funext fun t => rfl
    rw [hcomp, List.map_id']
  · show (List.map _ _).length = _
    rw [List.length_map, hstep]
    unfold datetimeRange
    exact datetimeRangeAux_length i (fixedMicros_pos hi) _ _ _ (by omega)

theorem c1_witness :
    isOkE (BinanceAdapter.load_ohlcv exArch exCfg exStart exEnd) = true ∧
    (rowsOf (BinanceAdapter.load_ohlcv exArch exCfg exStart exEnd)).length =
      (toMicros exEnd - toMicros exStart + 1000000 - 1) / 1000000 :=
  ⟨(c1_timeline_length exArch exCfg (by decide) (by decide) rfl
      exArch_wf_daily exArch_wf_monthly).1,
   (c1_timeline_length exArch exCfg (by decide) (by decide) rfl
      exArch_wf_daily exArch_wf_monthly).2.2⟩

/-- C2: for every timeline row and each of the five fields `open`, `high`,
`low`, `close`, `volume`, the value in the final output equals the
Daily-source value when that value is non-null, otherwise the
Monthly-source value when that is non-null, otherwise null; in particular,
when only Monthly data matches a timestamp the output row equals the
Monthly row's core fields, and when only Daily matches it equals the
Daily row's. -/
theorem c2_coalesce_daily_first
    (arch : BinanceDataGranularity → Date → Option (List CandleRow))
    (config : BinanceDataConfig) {start endDT : DateTime}
    (hs : start.Valid) (hle : DateTime.le start endDT)
    (hwd : WFChunks BinanceDataGranularity.DAILY
      (arch BinanceDataGranularity.DAILY))
    (hwm : WFChunks BinanceDataGranularity.MONTHLY
      (arch BinanceDataGranularity.MONTHLY)) :
    rowsOf (BinanceAdapter.load_ohlcv arch config start endDT) =
      (timelineTicks config.interval start endDT).map
        (specRow (dailySeries arch start endDT)
          (monthlySeries arch start endDT)) := by
  rw [load_ohlcv_reduce arch config hle (dailySeries_nodup arch hs hwd)
    (monthlySeries_nodup arch hs hwm)]
  show List.map _ _ = _
  have hcomp : (fun t => coalesceRow ⟨t,
      specLookup (dailySeries arch start endDT) t,
      specLookup (monthlySeries arch start endDT) t⟩) =
      specRow (dailySeries arch start endDT)
        (monthlySeries arch start endDT) :=
    funext fun t => coalesceRow_spec _ _ t
  rw [hcomp]

theorem c2_witness :
    rowsOf (BinanceAdapter.load_ohlcv exArch exCfg exStart exEnd) =
      (timelineTicks exCfg.interval exStart exEnd).map
        (specRow (dailySeries exArch exStart exEnd)
          (monthlySeries exArch exStart exEnd)) :=
  c2_coalesce_daily_first exArch exCfg (by decide) (by decide)
    exArch_wf_daily exArch_wf_monthly

/-- C3 counterexample: at a timestamp where the Daily and Monthly rows
differ in two core fields (`open` and `high`), the source logs one
ambiguous entry - it counts ambiguous joined rows - while the claim's
(timestamp, field) pair count is two, so the claim as stated is false. -/
theorem c3_counterexample :
    ambiguousOf (BinanceAdapter.load_ohlcv exArch exCfg exStart exEnd) ≠
      specConflictPairCount (dailySeries exArch exStart exEnd)
        (monthlySeries exArch exStart exEnd)
        (timelineTicks exCfg.interval exStart exEnd) := by
  decide

/-- C3 (amended): the number of reported conflicts equals exactly the
number of timestamps (not (timestamp, field) pairs) at which both a Daily
and a Monthly row matched the timeline timestamp and at least one of the
five core fields differs, where null-vs-null counts as equal and
null-vs-value or value-vs-different-value counts as differing; timestamps
where only one source matched never contribute. -/
theorem c3_ambiguous_row_count
    (arch : BinanceDataGranularity → Date → Option (List CandleRow))
    (config : BinanceDataConfig) {start endDT : DateTime}
    (hs : start.Valid) (hle : DateTime.le start endDT)
    (hwd : WFChunks BinanceDataGranularity.DAILY
      (arch BinanceDataGranularity.DAILY))
    (hwm : WFChunks BinanceDataGranularity.MONTHLY
      (arch BinanceDataGranularity.MONTHLY)) :
    ambiguousOf (BinanceAdapter.load_ohlcv arch config start endDT) =
      specAmbiguousTickCount (dailySeries arch start endDT)
        (monthlySeries arch start endDT)
        (timelineTicks config.interval start endDT) := by
  rw [load_ohlcv_reduce arch config hle (dailySeries_nodup arch hs hwd)
    (monthlySeries_nodup arch hs hwm)]
  show (List.filter ambiguousPred (List.map _ _)).length = _
  rw [filter_map_length]
  have hpred : (fun t => ambiguousPred
      ⟨t, specLookup (dailySeries arch start endDT) t,
        specLookup (monthlySeries arch start endDT) t⟩) =
      bothDifferB (dailySeries arch start endDT)
        (monthlySeries arch start endDT) :=
    funext fun t => ambiguousPred_spec _ _ t
  rw [hpred]
  rfl

theorem c3_witness :
    ambiguousOf (BinanceAdapter.load_ohlcv exArch exCfg exStart exEnd) =
      specAmbiguousTickCount (dailySeries exArch exStart exEnd)
        (monthlySeries exArch exStart exEnd)
        (timelineTicks exCfg.interval exStart exEnd) :=
  c3_ambiguous_row_count exArch exCfg (by decide) (by decide)
    exArch_wf_daily exArch_wf_monthly

/-- C6 counterexample: two consecutive daily archives that both carry a row
with the same `date_time` (the builder never deduplicates across chunk
boundaries) make the per-granularity series contain two rows with equal
`date_time`, so the claim's "for any input archives" is false. -/
theorem c6_counterexample :
    ¬ (((BinanceAdapter.load_ohlcv_granularity dupArch
        BinanceDataGranularity.DAILY dupStart dupEnd).series.map
      (·.date_time)).Nodup) := by
  decide

/-- C6 (amended): for input archives whose present chunks each hold rows
strictly ascending in `date_time` and contained in that chunk's calendar
window (the vendor non-overlap invariant the source relies on), the
per-granularity series built by the builder never contains two rows with
equal `date_time`, and the final output's `date_time` column is strictly
ascending with no duplicates, for every supported sampling interval. -/
theorem c6_strictly_ascending
    (arch : BinanceDataGranularity → Date → Option (List CandleRow))
    (config : BinanceDataConfig) {start endDT : DateTime}
    (hs : start.Valid)
    (hwd : WFChunks BinanceDataGranularity.DAILY
      (arch BinanceDataGranularity.DAILY))
    (hwm : WFChunks BinanceDataGranularity.MONTHLY
      (arch BinanceDataGranularity.MONTHLY)) :
    (∀ g : BinanceDataGranularity,
      ((BinanceAdapter.load_ohlcv_granularity (arch g) g start
        endDT).series.map (·.date_time)).Nodup) ∧
    ((rowsOf (BinanceAdapter.load_ohlcv arch config start endDT)).map
      (·.date_time)).Pairwise (· < ·) := by
  constructor
  · intro g
    cases g
    · exact ((buildLoop_series_sorted _ _ _ _ hwd _ _ hs).1).imp
        (fun h => Nat.ne_of_lt h)
    · exact ((buildLoop_series_sorted _ _ _ _ hwm _ _ hs).1).imp
        (fun h => Nat.ne_of_lt h)
  · by_cases hle : DateTime.le start endDT
    · rw [load_ohlcv_reduce arch config hle (dailySeries_nodup arch hs hwd)
        (monthlySeries_nodup arch hs hwm)]
      show ((List.map _ _).map _).Pairwise _
      rw [List.map_map]
      have hcomp : ((fun r : CandleRow => r.date_time) ∘ fun t =>
          coalesceRow ⟨t, specLookup (dailySeries arch start endDT) t,
            specLookup (monthlySeries arch start endDT) t⟩) = fun t => t :=
        funext fun t => rfl
      rw [hcomp, List.map_id']
      exact timelineTicks_pairwise config.interval hs endDT
    · have hgt : DateTime.lt endDT start := DateTime.lt_of_not_le hle
      have hb : DateTime.ltB endDT start = true := decide_eq_true hgt
      unfold BinanceAdapter.load_ohlcv
      simp [hb, rowsOf]

theorem c6_witness :
    ((BinanceAdapter.load_ohlcv_granularity
      (exArch BinanceDataGranularity.DAILY) BinanceDataGranularity.DAILY
      exStart exEnd).series.map (·.date_time)).Nodup ∧
    ((rowsOf (BinanceAdapter.load_ohlcv exArch exCfg exStart exEnd)).map
      (·.date_time)).Pairwise (· < ·) :=
  ⟨(c6_strictly_ascending exArch exCfg (by decide) exArch_wf_daily
      exArch_wf_monthly).1 BinanceDataGranularity.DAILY,
   (c6_strictly_ascending exArch exCfg (by decide) exArch_wf_daily
      exArch_wf_monthly).2⟩
